import Mathlib

/-!
Verification of the deep-research orchestration engine (TypeScript sources
under `src/`): the worker tool-execution loop (`research-agent.ts`), the
search-result pipeline (`utils.ts`), and the supervisor decision loop
(`scoping.ts` / `multi-agent-supervisor.ts`).

The TypeScript code is shallowly embedded: message histories are lists of a
tagged `Message` type; calls into the language-model service, the web-search
service and the delegated worker graphs are oracle parameters; a JavaScript
throw is an `Except.error` carrying `String(error)`; a JavaScript object used
as a string-keyed record is an insertion-ordered association list.
-/

set_option maxRecDepth 2048

namespace DeepResearch

/-- Argument payload of a tool call. The TypeScript `args` is an untyped
object; the fields the embedded code reads are `reflection` (think tool),
`research_topic` (ConductResearch) and `query` (tavily search), each possibly
absent (`none`). -/
structure ToolArgs where
  reflection : Option String := none
  research_topic : Option String := none
  query : Option String := none
deriving DecidableEq, Repr

/-- A capability invocation `{name, args, id}` as produced by the language
model service. -/
structure ToolCall where
  id : String
  name : String
  args : ToolArgs
deriving DecidableEq, Repr

/-- Conversation turns: system, human, AI (with the optional `tool_calls`
array — `none` models an absent/undefined field, `some []` an empty array,
which JavaScript truthiness distinguishes) and tool-result messages. -/
inductive Message where
  | system (content : String)
  | human (content : String)
  | ai (content : String) (tool_calls : Option (List ToolCall))
  | tool (content : String) (tool_call_id : String) (name : String)
deriving DecidableEq, Repr

/-- The `content` field of a message. -/
def Message.contentOf : Message → String
  | .system c => c
  | .human c => c
  | .ai c _ => c
  | .tool c _ _ => c

/-- The `tool_call_id` of a tool message (empty for other kinds). -/
def Message.toolCallId : Message → String
  | .tool _ i _ => i
  | _ => ""

/-- Whether a message is a ToolMessage (message type tag "tool"). -/
def Message.isToolMessage : Message → Bool
  | .tool _ _ _ => true
  | _ => false

/-- Whether a message is an AIMessage (message type tag "ai"). -/
def Message.isAiMessage : Message → Bool
  | .ai _ _ => true
  | _ => false

/-- Reading `(message as AIMessage)?.tool_calls` on an optional message:
yields the `tool_calls` field when the message is an AI turn carrying one,
and `none` (undefined) otherwise. -/
def aiToolCalls : Option Message → Option (List ToolCall)
  | some (Message.ai _ tcs) => tcs
  | _ => none

/-- JavaScript `s || ""` on a string: the empty string is falsy, every other
string is kept; on strings this is the identity. -/
def orEmpty (s : String) : String :=
  if s = "" then "" else s

theorem orEmpty_eq (s : String) : orEmpty s = s := by
  by_cases h : s = "" <;> simp [orEmpty, h]

/-- JavaScript truthiness of an optional string field: absent (`none`) and
the empty string are falsy. -/
def strFieldTruthy : Option String → Bool
  | none => false
  | some s => !(s == "")

/- ===== Worker tools (`utils.ts`) ===== -/

/-- `thinkTool`'s behavior: echoes the reflection back
(`Reflection recorded: ...`); it has no side effect and never throws. -/
def thinkToolRun (reflection : String) : String :=
  "Reflection recorded: " ++ reflection

/-- `(toolCall.args as any)?.reflection || ""`: absent or empty reflection
becomes the empty string. -/
def reflectionArg (args : ToolArgs) : String :=
  args.reflection.getD ""

/-- The names in the worker's `toolsByName` map: `[tavilySearch, thinkTool]`
from `research-agent.ts`. -/
def researcherToolNames : List String :=
  ["tavily_search", "think_tool"]

/-- The observation string `toolNode` computes for one tool call: the bound
tool's own result, the catch-branch text when the bound tool throws, or the
synthetic not-found text when the name is unbound. `invokeTool` is the oracle
for `tool.invoke(toolCall.args)` of the bound tools (`Except.error e` models
a throw whose `String(error)` is `e`). -/
def observationFor (invokeTool : ToolCall → Except String String)
    (toolCall : ToolCall) : String :=
  if researcherToolNames.contains toolCall.name then
    match invokeTool toolCall with
    | .ok observation => observation
    | .error e => "Error executing tool '" ++ toolCall.name ++ "': " ++ e
  else
    "Error: tool '" ++ toolCall.name ++ "' not found."

/-- `toolNode` of `research-agent.ts`: reads `lastMessage?.tool_calls ?? []`
and pushes one ToolMessage per tool call, in invocation order. Returns the
list of produced ToolMessages (the node's `researcher_messages` update, which
the reducer appends to the history). -/
def toolNode (invokeTool : ToolCall → Except String String)
    (researcher_messages : List Message) : List Message :=
  let lastMessage := researcher_messages.getLast?
  let toolCalls := (aiToolCalls lastMessage).getD []
  toolCalls.foldl
    (fun toolOutputs toolCall =>
      toolOutputs ++
        [Message.tool (observationFor invokeTool toolCall) toolCall.id toolCall.name])
    []

/- ===== Search-result pipeline (`utils.ts`) ===== -/

/-- One web-search result `{url, title, content, raw_content?}`. -/
structure SearchResult where
  url : String
  title : String
  content : String
  raw_content : Option String := none
deriving DecidableEq, Repr

/-- One response batch from the search service (its `results` array). -/
structure SearchResponse where
  results : List SearchResult
deriving DecidableEq, Repr

/-- Indexing a string-keyed JavaScript record modeled as an insertion-ordered
association list: `recordLookup m url` is `m[url]`. -/
def recordLookup : List (String × SearchResult) → String → Option SearchResult
  | [], _ => none
  | (k, v) :: rest, url => if k = url then some v else recordLookup rest url

/-- The body of the inner loop of `deduplicateSearchResults`:
`if (!uniqueResults[url]) uniqueResults[url] = result` — insert the result
under its URL only when the key is absent (a stored result object is always
truthy). -/
def dedupInsert (uniqueResults : List (String × SearchResult))
    (result : SearchResult) : List (String × SearchResult) :=
  if (recordLookup uniqueResults result.url).isSome then uniqueResults
  else uniqueResults ++ [(result.url, result)]

/-- `deduplicateSearchResults` of `utils.ts`: iterate the response batches in
arrival order and, within each, the results in order, keeping the first
result per URL. -/
def deduplicateSearchResults (searchResults : List SearchResponse) :
    List (String × SearchResult) :=
  searchResults.foldl
    (fun uniqueResults response => response.results.foldl dedupInsert uniqueResults)
    []

/-- All results of all batches, flattened in batch-then-within-batch order. -/
def allResults (searchResults : List SearchResponse) : List SearchResult :=
  searchResults.flatMap (fun response => response.results)

/-- First element of `l` whose `url` field equals `url`. -/
def firstWithUrl : List SearchResult → String → Option SearchResult
  | [], _ => none
  | r :: rest, url => if r.url = url then some r else firstWithUrl rest url

/-- The `{summary, key_excerpts}` schema of the summarization model. -/
structure Summary where
  summary : String
  key_excerpts : String
deriving DecidableEq, Repr

/-- `summarizeWebpageContent` of `utils.ts`. `summarizeModel` is the oracle
for the structured-output language-model call (`Except.error` models a
rejected call). On success the two-section tagged string is returned; on any
failure the code falls back to the first 1000 characters plus `"..."` when
the content is longer than 1000 characters, and to the raw content unchanged
otherwise. (JavaScript counts UTF-16 units where Lean counts characters;
the claims here do not depend on the difference.) -/
def summarizeWebpageContent (summarizeModel : String → Except String Summary)
    (webpageContent : String) : String :=
  match summarizeModel webpageContent with
  | .ok summary =>
      "<summary>\n" ++ summary.summary ++ "\n</summary>\n\n<key_excerpts>\n" ++
        summary.key_excerpts ++ "\n</key_excerpts>\n"
  | .error _ =>
      if webpageContent.length > 1000 then
        webpageContent.take 1000 ++ "..."
      else
        webpageContent

/-- A processed entry `{title, content}` of `processSearchResults`. -/
structure SummarizedEntry where
  title : String
  content : String
deriving DecidableEq, Repr

/-- `processSearchResults` of `utils.ts`: for each unique result, keep its
`content` when `raw_content` is falsy (absent or empty), otherwise summarize
the raw content (with the internal fallback on failure). -/
def processSearchResults (summarizeModel : String → Except String Summary)
    (uniqueResults : List (String × SearchResult)) :
    List (String × SummarizedEntry) :=
  uniqueResults.map (fun entry =>
    let result := entry.2
    let content :=
      if strFieldTruthy result.raw_content then
        summarizeWebpageContent summarizeModel (result.raw_content.getD "")
      else
        result.content
    (entry.1, { title := result.title, content := content }))

/- ===== Researcher graph (`research-agent.ts`) ===== -/

/-- `ResearcherState` of `shared/types`: message history, the
`tool_call_iteration` counter (default 0), the topic, the compressed result
and the raw notes. -/
structure ResearcherStateRec where
  researcher_messages : List Message
  tool_call_iteration : Nat
  research_topic : String
  compressed_research : String
  raw_notes : List String
deriving DecidableEq, Repr

/-- `llmCall` of `research-agent.ts`: invoke the model on the system prompt
followed by the history, and append the response (via the `addMessages`
reducer). `llm` is the oracle for the bound-tools model call and
`systemMessage` the fixed system instruction. -/
def llmCallNode (llm : List Message → Message) (systemMessage : Message)
    (state : ResearcherStateRec) : ResearcherStateRec :=
  { state with
      researcher_messages :=
        state.researcher_messages ++ [llm (systemMessage :: state.researcher_messages)] }

/-- The `tool_node` graph node: append `toolNode`'s ToolMessages to the
history. -/
def researcherToolNode (invokeTool : ToolCall → Except String String)
    (state : ResearcherStateRec) : ResearcherStateRec :=
  { state with
      researcher_messages :=
        state.researcher_messages ++ toolNode invokeTool state.researcher_messages }

/-- `shouldContinue` of `research-agent.ts`: continue to `tool_node` exactly
when the last message carries a nonempty `tool_calls` array. -/
def shouldContinueToTools (state : ResearcherStateRec) : Bool :=
  match aiToolCalls state.researcher_messages.getLast? with
  | some toolCalls => decide (toolCalls.length > 0)
  | none => false

/-- `compressResearch` of `research-agent.ts`: invoke the summarization model
(oracle `compress`) on system prompt + history + closing human message, set
`compressed_research` to the response text, and append one raw-notes string:
the contents of all tool and AI messages of the history joined by newlines. -/
def compressResearchNode (compress : List Message → String)
    (compressSystem : String) (closingPrompt : String → String)
    (state : ResearcherStateRec) : ResearcherStateRec :=
  let messages :=
    Message.system compressSystem ::
      (state.researcher_messages ++ [Message.human (closingPrompt state.research_topic)])
  let rawNotes :=
    (state.researcher_messages.filter
      (fun m => m.isToolMessage || m.isAiMessage)).map Message.contentOf
  { state with
      compressed_research := compress messages,
      raw_notes := state.raw_notes ++ [String.intercalate "\n" rawNotes] }

/-- One full run of the researcher graph, `fuel` bounding the number of
llm-call/tool-node cycles: START → llm_call → (tool_node → llm_call)* →
compress_research → END. `none` when the fuel runs out before the model
stops issuing tool calls. -/
def runResearcher (llm : List Message → Message) (systemMessage : Message)
    (invokeTool : ToolCall → Except String String)
    (compress : List Message → String) (compressSystem : String)
    (closingPrompt : String → String) :
    Nat → ResearcherStateRec → Option ResearcherStateRec
  | 0, _ => none
  | Nat.succ fuel, state =>
      let afterLlm := llmCallNode llm systemMessage state
      if shouldContinueToTools afterLlm then
        runResearcher llm systemMessage invokeTool compress compressSystem
          closingPrompt fuel (researcherToolNode invokeTool afterLlm)
      else
        some (compressResearchNode compress compressSystem closingPrompt afterLlm)

/- ===== Supervisor loop (`scoping.ts` lines 108-335) ===== -/

/-- The output a delegated worker's `researcherAgent.invoke` resolves with:
its `compressed_research` string (default empty) and its `raw_notes`
(`none` models an absent field, which the aggregation treats as falsy). -/
structure WorkerResult where
  compressed_research : String
  raw_notes : Option (List String)
deriving DecidableEq, Repr

/-- `SupervisorState` of `shared/types`: supervisor message history, the
research brief, harvested notes, the iteration counter and raw notes. -/
structure SupervisorStateRec where
  supervisor_messages : List Message
  research_brief : String
  notes : List String
  research_iterations : Nat
  raw_notes : List String
deriving DecidableEq, Repr

/-- The `Command` a `supervisorTools` call returns: loop back to the
`supervisor` node with new tool messages and raw notes, or end the phase
with harvested notes and the research brief. -/
inductive SupCommand where
  | toSupervisor (toolMessages : List Message) (rawNotes : List String)
  | toEnd (notes : List String) (research_brief : String)
deriving DecidableEq, Repr

/-- Whether a command ends the phase (goto END). -/
def SupCommand.isEnd : SupCommand → Bool
  | .toEnd _ _ => true
  | .toSupervisor _ _ => false

/-- The tool messages a command appends (none for an end command). -/
def SupCommand.toolMessagesOf : SupCommand → List Message
  | .toSupervisor toolMessages _ => toolMessages
  | .toEnd _ _ => []

/-- Modelled from the spec: `getNotesFromToolCalls`, imported by the
supervisor from the repository's `utils` but not present under `src/`.
Per spec section 4.1, `extractNotes(messages)` "filters a message history
down to those tagged as tool-result messages and returns their payload
strings in original order". -/
def getNotesFromToolCalls (messages : List Message) : List String :=
  (messages.filter Message.isToolMessage).map Message.contentOf

/-- Modelled from the spec: `maxResearcherIterations`, imported by the
supervisor from `./config` but not present under `src/`. The configured
maximum iteration count is 6: the prompt parameter in
`multi-agent-supervisor.ts` passes the literal "6" and the exit check in
`supervisorTools` compares the counter against the literal 6. -/
def maxResearcherIterations : Nat := 6

/-- `supervisorMessages.at(-1)?.tool_calls || []` — the invocation batch of
the latest supervisor turn. -/
def batchToolCalls (state : SupervisorStateRec) : List ToolCall :=
  (aiToolCalls state.supervisor_messages.getLast?).getD []

/-- The batch's think-tool invocations (`name === "think_tool"`). -/
def thinkCallsOf (state : SupervisorStateRec) : List ToolCall :=
  (batchToolCalls state).filter (fun toolCall => toolCall.name == "think_tool")

/-- The batch's delegation invocations (`name === "ConductResearch"`). -/
def conductCallsOf (state : SupervisorStateRec) : List ToolCall :=
  (batchToolCalls state).filter (fun toolCall => toolCall.name == "ConductResearch")

/-- The exit criteria of `supervisorTools`:
`researchIterations >= 6`, or the latest message carries no `tool_calls`
field (`!(mostRecentMessage as AIMessage)?.tool_calls` — an empty array is
truthy, so only an absent field counts), or some invocation of the latest
turn names `ResearchComplete`. -/
def supervisorExitCheck (state : SupervisorStateRec) : Bool :=
  let researchIterations := state.research_iterations
  let mostRecentMessage := state.supervisor_messages.getLast?
  let exceededIterations : Bool := decide (researchIterations ≥ 6)
  let noToolCalls : Bool := (aiToolCalls mostRecentMessage).isNone
  let researchComplete : Bool :=
    ((aiToolCalls mostRecentMessage).getD []).any
      (fun toolCall => toolCall.name == "ResearchComplete")
  exceededIterations || noToolCalls || researchComplete

/-- The end-of-phase command: `goto END` with
`{notes: getNotesFromToolCalls(supervisorMessages), research_brief:
state.research_brief || ""}`. -/
def supervisorEndCommand (state : SupervisorStateRec) : SupCommand :=
  .toEnd (getNotesFromToolCalls state.supervisor_messages) (orEmpty state.research_brief)

/-- `result.compressed_research || "Error synthesizing research report"`:
a falsy (empty) compressed result degrades to the fixed error string. -/
def researchPayload (result : WorkerResult) : String :=
  if result.compressed_research = "" then "Error synthesizing research report"
  else result.compressed_research

/-- `result.raw_notes ? result.raw_notes.join("\n") : ""`. -/
def workerRawNote (result : WorkerResult) : String :=
  match result.raw_notes with
  | some notes => String.intercalate "\n" notes
  | none => ""

/-- `await Promise.all(researchPromises)` when every promise settles:
resolves with the `{result, toolCall}` pairs in invocation order, or rejects
(`Except.error`) as soon as any worker's invocation handling throws.
`research` is the oracle for `researcherAgent.invoke` on one delegation. -/
def promiseAllSettled (research : ToolCall → Except String WorkerResult) :
    List ToolCall → Except String (List (WorkerResult × ToolCall))
  | [] => .ok []
  | toolCall :: rest =>
      match research toolCall with
      | .error e => .error e
      | .ok result =>
          match promiseAllSettled research rest with
          | .error e => .error e
          | .ok results => .ok ((result, toolCall) :: results)

/-- `supervisorTools` of `scoping.ts` (the supervisor's EXECUTING step),
with every delegated worker's invocation handling settling (resolving or
throwing). Checks the exit criteria first; otherwise executes the think
tools (pushed first, in order), awaits all delegations, appends one
ToolMessage per delegation in invocation order, and collects one joined
raw-notes string per worker; any rejection is caught by the surrounding
try/catch, which ends the phase like the exit branch. -/
def supervisorToolsFn (research : ToolCall → Except String WorkerResult)
    (state : SupervisorStateRec) : SupCommand :=
  if supervisorExitCheck state then
    supervisorEndCommand state
  else
    let thinkMessages :=
      (thinkCallsOf state).foldl
        (fun toolMessages toolCall =>
          toolMessages ++
            [Message.tool (thinkToolRun (reflectionArg toolCall.args))
              (orEmpty toolCall.id) (orEmpty toolCall.name)])
        []
    match promiseAllSettled research (conductCallsOf state) with
    | .error _ => supervisorEndCommand state
    | .ok researchResults =>
        let researchToolMessages :=
          researchResults.map (fun rt =>
            Message.tool (researchPayload rt.1) rt.2.id rt.2.name)
        let allRawNotes := researchResults.map (fun rt => workerRawNote rt.1)
        .toSupervisor (thinkMessages ++ researchToolMessages) allRawNotes

/-- Applying a command's `update` to the supervisor state through the state
reducers: `supervisor_messages` and `raw_notes`/`notes` append, the brief
replaces. -/
def applySupCommand (state : SupervisorStateRec) : SupCommand → SupervisorStateRec
  | .toSupervisor toolMessages rawNotes =>
      { state with
          supervisor_messages := state.supervisor_messages ++ toolMessages,
          raw_notes := state.raw_notes ++ rawNotes }
  | .toEnd notes brief =>
      { state with
          notes := state.notes ++ notes,
          research_brief := brief }

/-- The `supervisor` node (the DECIDING step): invoke the bound-tools model
(oracle `model`) on the system message followed by the supervisor history,
append the response, and increment `research_iterations` by one. -/
def supervisorNode (model : List Message → Message) (systemMessage : Message)
    (state : SupervisorStateRec) : SupervisorStateRec :=
  { state with
      supervisor_messages :=
        state.supervisor_messages ++ [model (systemMessage :: state.supervisor_messages)],
      research_iterations := state.research_iterations + 1 }

/-- A run of the supervisor graph: START → supervisor → supervisor_tools →
(supervisor | END), `fuel` bounding the number of decision cycles. `none`
when the fuel runs out before the phase ends. -/
def runSupervisor (model : List Message → Message) (systemMessage : Message)
    (research : ToolCall → Except String WorkerResult) :
    Nat → SupervisorStateRec → Option SupervisorStateRec
  | 0, _ => none
  | Nat.succ fuel, state =>
      let afterDecision := supervisorNode model systemMessage state
      let cmd := supervisorToolsFn research afterDecision
      if cmd.isEnd then some (applySupCommand afterDecision cmd)
      else runSupervisor model systemMessage research fuel (applySupCommand afterDecision cmd)

/- ===== Promise.all with possibly-pending workers (for the fan-in barrier) ===== -/

/-- Whether a worker's possibly-pending outcome (`none` = still running) is
a rejection. -/
def isRejectedOutcome : Option (Except String WorkerResult) → Bool
  | some (.error _) => true
  | _ => false

/-- `Promise.all` over possibly-pending promises: rejects as soon as any
input rejects, resolves once every input has resolved, and otherwise is
still pending (`none`). -/
def promiseAllPending (research : ToolCall → Option (Except String WorkerResult)) :
    List ToolCall → Option (Except String (List (WorkerResult × ToolCall)))
  | [] => some (.ok [])
  | toolCall :: rest =>
      match research toolCall with
      | some (.error e) => some (.error e)
      | some (.ok result) =>
          match promiseAllPending research rest with
          | some (.ok results) => some (.ok ((result, toolCall) :: results))
          | some (.error e) => some (.error e)
          | none => none
      | none =>
          match promiseAllPending research rest with
          | some (.error e) => some (.error e)
          | _ => none

/-- `supervisorTools` with the `await Promise.all` barrier made explicit:
`none` means the step is still suspended at the barrier — no command is
produced, no state update happens and the next decision cycle does not
begin. Identical to `supervisorToolsFn` once every worker settles. -/
def supervisorToolsAwait (research : ToolCall → Option (Except String WorkerResult))
    (state : SupervisorStateRec) : Option SupCommand :=
  if supervisorExitCheck state then
    some (supervisorEndCommand state)
  else
    let thinkMessages :=
      (thinkCallsOf state).foldl
        (fun toolMessages toolCall =>
          toolMessages ++
            [Message.tool (thinkToolRun (reflectionArg toolCall.args))
              (orEmpty toolCall.id) (orEmpty toolCall.name)])
        []
    match promiseAllPending research (conductCallsOf state) with
    | none => none
    | some (.error _) => some (supervisorEndCommand state)
    | some (.ok researchResults) =>
        let researchToolMessages :=
          researchResults.map (fun rt =>
            Message.tool (researchPayload rt.1) rt.2.id rt.2.name)
        let allRawNotes := researchResults.map (fun rt => workerRawNote rt.1)
        some (.toSupervisor (thinkMessages ++ researchToolMessages) allRawNotes)

/- ===== Concrete inputs used by witnesses and counterexamples ===== -/

/-- A concrete invoke oracle: the think tool behaves as in the source, the
search tool throws. -/
def wInvokeTool : ToolCall → Except String String := fun toolCall =>
  if toolCall.name == "think_tool" then
    Except.ok (thinkToolRun (reflectionArg toolCall.args))
  else
    Except.error "network down"

/-- A concrete worker batch: a bound think call, an unbound tool name and a
bound search call whose invocation throws. -/
def wToolBatch : List ToolCall :=
  [⟨"id1", "think_tool", { reflection := some "note" }⟩,
   ⟨"id2", "no_such_tool", {}⟩,
   ⟨"id3", "tavily_search", { query := some "q" }⟩]

/-- A worker history whose last message carries `wToolBatch`. -/
def wResearcherMessages : List Message :=
  [Message.human "topic", Message.ai "" (some wToolBatch)]

/-- A model oracle that immediately answers with free text (no tool calls). -/
def wLlmNoCalls : List Message → Message := fun _ => Message.ai "final answer" none

/-- A concrete initial researcher state. -/
def wResearcherState0 : ResearcherStateRec :=
  { researcher_messages := [Message.human "topic"],
    tool_call_iteration := 0,
    research_topic := "topic",
    compressed_research := "",
    raw_notes := [] }

/-- A concrete compression oracle. -/
def wCompress : List Message → String := fun _ => "summary"

/-- A concrete closing-prompt template. -/
def wClosingPrompt : String → String := fun topic => "closing " ++ topic

/-- The worker's fixed system instruction, as a concrete message. -/
def wResearcherSystem : Message := Message.system "research prompt"

/-- Concrete search batches: URL "a" appears in both batches, "b" once. -/
def wBatchA : List SearchResponse :=
  [{ results := [{ url := "a", title := "t1", content := "c1" },
                 { url := "b", title := "t2", content := "c2" }] },
   { results := [{ url := "a", title := "t3", content := "c3" }] }]

/-- The same results as `wBatchA`, with batches and entries reordered. -/
def wBatchB : List SearchResponse :=
  [{ results := [{ url := "a", title := "t3", content := "c3" }] },
   { results := [{ url := "b", title := "t2", content := "c2" },
                 { url := "a", title := "t1", content := "c1" }] }]

/-- The researcher state the one-cycle run from `wResearcherState0` under
`wLlmNoCalls` ends in. -/
def wResearcherOut : ResearcherStateRec :=
  { researcher_messages := [Message.human "topic", Message.ai "final answer" none],
    tool_call_iteration := 0,
    research_topic := "topic",
    compressed_research := "summary",
    raw_notes := ["final answer"] }

/-- A concrete supervisor system message. -/
def wSupSystem : Message := Message.system "lead researcher prompt"

/-- An adversarial supervisor model that always issues a delegation. -/
def wAdversarialModel : List Message → Message :=
  fun _ => Message.ai "" (some [⟨"c", "ConductResearch", { research_topic := some "t" }⟩])

/-- A research oracle under which every delegated worker resolves. -/
def wResearch : ToolCall → Except String WorkerResult :=
  fun toolCall =>
    Except.ok { compressed_research := "findings for " ++ toolCall.id,
                raw_notes := some ["note"] }

/-- A concrete initial supervisor state (iteration counter 0). -/
def wSupState0 : SupervisorStateRec :=
  { supervisor_messages := [Message.human "brief."],
    research_brief := "brief",
    notes := [],
    research_iterations := 0,
    raw_notes := [] }

/-- A supervisor state whose latest turn carries an empty (but present)
`tool_calls` array. -/
def c3EmptyBatchState : SupervisorStateRec :=
  { supervisor_messages := [Message.human "brief.", Message.ai "continuing" (some [])],
    research_brief := "brief",
    notes := [],
    research_iterations := 1,
    raw_notes := [] }

/-- A supervisor state whose latest turn carries a ResearchComplete
invocation, below the iteration cap. -/
def c3CompleteState : SupervisorStateRec :=
  { supervisor_messages :=
      [Message.human "brief.",
       Message.ai "done" (some [⟨"rc1", "ResearchComplete", {}⟩])],
    research_brief := "brief",
    notes := [],
    research_iterations := 1,
    raw_notes := [] }

/-- A supervisor state whose latest turn carries two delegations. -/
def c5State : SupervisorStateRec :=
  { supervisor_messages :=
      [Message.human "brief.",
       Message.ai ""
         (some [⟨"d1", "ConductResearch", { research_topic := some "topic one" }⟩,
                ⟨"d2", "ConductResearch", { research_topic := some "topic two" }⟩])],
    research_brief := "brief",
    notes := [],
    research_iterations := 1,
    raw_notes := [] }

/-- A research oracle under which the first delegated worker throws and the
second resolves normally. -/
def c5Research : ToolCall → Except String WorkerResult :=
  fun toolCall =>
    if toolCall.id == "d1" then Except.error "worker crashed"
    else Except.ok { compressed_research := "good findings", raw_notes := some ["n"] }

/-- A supervisor state whose latest turn carries two delegations (for the
fan-in barrier witness). -/
def c6State : SupervisorStateRec :=
  { supervisor_messages :=
      [Message.human "brief.",
       Message.ai ""
         (some [⟨"d1", "ConductResearch", { research_topic := some "topic one" }⟩,
                ⟨"d2", "ConductResearch", { research_topic := some "topic two" }⟩])],
    research_brief := "brief",
    notes := [],
    research_iterations := 1,
    raw_notes := [] }

/-- A scheduler view in which the first worker has already resolved and the
second is still running. -/
def c6Research : ToolCall → Option (Except String WorkerResult) :=
  fun toolCall =>
    if toolCall.id == "d1" then
      some (Except.ok { compressed_research := "fast result", raw_notes := some ["n"] })
    else none

/-- The spec scenario's first delegation ("solar efficiency"). -/
def c8Delegate1 : ToolCall :=
  ⟨"c1", "ConductResearch", { research_topic := some "solar efficiency" }⟩

/-- The spec scenario's second delegation ("wind efficiency"). -/
def c8Delegate2 : ToolCall :=
  ⟨"c2", "ConductResearch", { research_topic := some "wind efficiency" }⟩

/-- The spec scenario's reflect invocation. -/
def c8Reflect : ToolCall :=
  ⟨"t1", "think_tool", { reflection := some "planning" }⟩

/-- The scenario's decision batch: delegate, delegate, reflect, in that
invocation order. -/
def c8Batch : List ToolCall := [c8Delegate1, c8Delegate2, c8Reflect]

/-- A supervisor model issuing the scenario batch. -/
def c8Model : List Message → Message := fun _ => Message.ai "" (some c8Batch)

/-- The scenario's initial supervisor state, seeded with the brief. -/
def c8State0 : SupervisorStateRec :=
  { supervisor_messages := [Message.human "Compare solar vs wind efficiency."],
    research_brief := "Compare solar vs wind efficiency",
    notes := [],
    research_iterations := 0,
    raw_notes := [] }

/-- A research oracle resolving each delegation with distinct findings. -/
def c8Research : ToolCall → Except String WorkerResult :=
  fun toolCall =>
    Except.ok { compressed_research := "findings " ++ toolCall.id,
                raw_notes := some ["note " ++ toolCall.id] }

/-- A worker that completes normally with an empty compressed result. -/
def c9Research : ToolCall → Except String WorkerResult :=
  fun _ => Except.ok { compressed_research := "", raw_notes := some [] }

/-- A supervisor state whose latest turn carries one delegation. -/
def c9State : SupervisorStateRec :=
  { supervisor_messages :=
      [Message.human "brief.",
       Message.ai "" (some [⟨"d9", "ConductResearch", { research_topic := some "t" }⟩])],
    research_brief := "b",
    notes := [],
    research_iterations := 2,
    raw_notes := [] }

end DeepResearch

namespace DeepResearch

/- ===== Shared lemmas ===== -/

/-- A push loop `for x of l: out.push(f x)` is a map. -/
theorem foldl_append_singleton {α β : Type} (f : α → β) :
    ∀ (l : List α) (acc : List β),
      l.foldl (fun out x => out ++ [f x]) acc = acc ++ l.map f := by
  intro l
  induction l with
  | nil => intro acc; simp
  | cons x xs ih => intro acc; simp [List.foldl_cons, ih, List.append_assoc]

/-- `toolNode` as a map over the batch. -/
theorem toolNode_eq_map (invokeTool : ToolCall → Except String String)
    (researcher_messages : List Message) :
    toolNode invokeTool researcher_messages
      = ((aiToolCalls researcher_messages.getLast?).getD []).map
          (fun toolCall =>
            Message.tool (observationFor invokeTool toolCall) toolCall.id toolCall.name) := by
  simp [toolNode, foldl_append_singleton]

/- ===== C1 ===== -/

/-- C1: for every batch of k tool invocations carried by the last message
presented to `toolNode`, exactly k ToolMessages are produced (and appended to
the worker history by the reducer), the i-th carrying the i-th invocation's
id and name, in invocation order; an invocation naming an unbound tool gets
the synthetic not-found message instead of raising, and a bound tool's throw
becomes the `Error executing tool ...` payload. -/
theorem toolNode_one_toolmessage_per_invocation
    (invokeTool : ToolCall → Except String String)
    (researcher_messages : List Message) :
    (toolNode invokeTool researcher_messages).length
        = ((aiToolCalls researcher_messages.getLast?).getD []).length
    ∧ (∀ i (hi : i < (toolNode invokeTool researcher_messages).length)
        (hj : i < ((aiToolCalls researcher_messages.getLast?).getD []).length),
        (toolNode invokeTool researcher_messages).get ⟨i, hi⟩
          = Message.tool
              (observationFor invokeTool
                (((aiToolCalls researcher_messages.getLast?).getD []).get ⟨i, hj⟩))
              ((((aiToolCalls researcher_messages.getLast?).getD []).get ⟨i, hj⟩).id)
              ((((aiToolCalls researcher_messages.getLast?).getD []).get ⟨i, hj⟩).name))
    ∧ (∀ toolCall : ToolCall, researcherToolNames.contains toolCall.name = false →
        observationFor invokeTool toolCall
          = "Error: tool '" ++ toolCall.name ++ "' not found.")
    ∧ (∀ (toolCall : ToolCall) (e : String),
        researcherToolNames.contains toolCall.name = true →
        invokeTool toolCall = Except.error e →
        observationFor invokeTool toolCall
          = "Error executing tool '" ++ toolCall.name ++ "': " ++ e)
    ∧ (∀ state : ResearcherStateRec,
        (researcherToolNode invokeTool state).researcher_messages
          = state.researcher_messages ++ toolNode invokeTool state.researcher_messages) := by
  refine ⟨?_, ?_, ?_, ?_, ?_⟩
  · simp [toolNode_eq_map]
  · intro i hi hj
    simp [toolNode_eq_map, List.get_eq_getElem, List.getElem_map]
  · intro toolCall h
    unfold observationFor
    rw [h]
    simp
  · intro toolCall e hb he
    unfold observationFor
    rw [hb, he]
    simp
  · intro state
    rfl

/-- Witness for C1 at `wToolBatch`: three invocations yield three
ToolMessages, and the unbound name gets the synthetic not-found payload. -/
theorem toolNode_one_toolmessage_per_invocation_witness :
    (toolNode wInvokeTool wResearcherMessages).length
        = ((aiToolCalls wResearcherMessages.getLast?).getD []).length
    ∧ observationFor wInvokeTool ⟨"id2", "no_such_tool", {}⟩
        = "Error: tool 'no_such_tool' not found." :=
  ⟨(toolNode_one_toolmessage_per_invocation wInvokeTool wResearcherMessages).1,
   (toolNode_one_toolmessage_per_invocation wInvokeTool wResearcherMessages).2.2.1
     ⟨"id2", "no_such_tool", {}⟩ (by decide)⟩

/- ===== C10 ===== -/

/-- A completed researcher run keeps `tool_call_iteration` unchanged. -/
theorem runResearcher_preserves_iteration (llm : List Message → Message)
    (systemMessage : Message) (invokeTool : ToolCall → Except String String)
    (compress : List Message → String) (compressSystem : String)
    (closingPrompt : String → String) :
    ∀ (fuel : Nat) (state out : ResearcherStateRec),
      runResearcher llm systemMessage invokeTool compress compressSystem
          closingPrompt fuel state = some out →
      out.tool_call_iteration = state.tool_call_iteration := by
  intro fuel
  induction fuel with
  | zero =>
      intro state out h
      simp [runResearcher] at h
  | succ f ih =>
      intro state out h
      simp only [runResearcher] at h
      by_cases hc : shouldContinueToTools (llmCallNode llm systemMessage state)
      · rw [if_pos hc] at h
        have h2 := ih (researcherToolNode invokeTool (llmCallNode llm systemMessage state)) out h
        exact h2
      · rw [if_neg hc] at h
        have hout := Option.some.inj h
        rw [← hout]
        rfl

/-- C10: no node of the researcher graph (`llm_call`, `tool_node`,
`compress_research`) writes `tool_call_iteration`; a completed run returns
it unchanged, so from its default 0 it stays 0 and no worker-internal
tool-call cap is ever enforced. -/
theorem tool_call_iteration_never_written (llm : List Message → Message)
    (systemMessage : Message) (invokeTool : ToolCall → Except String String)
    (compress : List Message → String) (compressSystem : String)
    (closingPrompt : String → String) :
    (∀ state : ResearcherStateRec,
        (llmCallNode llm systemMessage state).tool_call_iteration
          = state.tool_call_iteration)
    ∧ (∀ state : ResearcherStateRec,
        (researcherToolNode invokeTool state).tool_call_iteration
          = state.tool_call_iteration)
    ∧ (∀ state : ResearcherStateRec,
        (compressResearchNode compress compressSystem closingPrompt
            state).tool_call_iteration
          = state.tool_call_iteration)
    ∧ (∀ (fuel : Nat) (state out : ResearcherStateRec),
        runResearcher llm systemMessage invokeTool compress compressSystem
            closingPrompt fuel state = some out →
        state.tool_call_iteration = 0 → out.tool_call_iteration = 0) := by
  refine ⟨fun _ => rfl, fun _ => rfl, fun _ => rfl, ?_⟩
  intro fuel state out h h0
  rw [runResearcher_preserves_iteration llm systemMessage invokeTool compress
    compressSystem closingPrompt fuel state out h]
  exact h0

/-- Witness for C10: a concrete one-cycle run completes and its
`tool_call_iteration` is still 0. -/
theorem tool_call_iteration_never_written_witness :
    runResearcher wLlmNoCalls wResearcherSystem wInvokeTool wCompress
        "compress prompt" wClosingPrompt 1 wResearcherState0 = some wResearcherOut
    ∧ wResearcherOut.tool_call_iteration = 0 :=
  ⟨by rfl,
   (tool_call_iteration_never_written wLlmNoCalls wResearcherSystem wInvokeTool
      wCompress "compress prompt" wClosingPrompt).2.2.2 1 wResearcherState0
     wResearcherOut (by decide) rfl⟩

/- ===== C7 ===== -/

/-- C7 counterexample: when the summarization call fails on content of at
most 1000 characters, the raw content is returned unchanged with no ellipsis
marker appended: for the 10-character content below, the claimed output
(its first 1000 characters, i.e. all of it, followed by the marker) differs
from the actual output. -/
theorem summarize_fallback_counterexample :
    summarizeWebpageContent (fun _ => Except.error "model unavailable") "short text"
        = "short text"
    ∧ "short text" ≠ "short text" ++ "..." := by
  constructor
  · rfl
  · decide

/-- C7 (amended): if the language-model summarization call fails, then
`summarizeWebpageContent` returns the first 1000 characters of the raw text
followed by an ellipsis marker when the raw text is longer than 1000
characters, and the raw text unchanged otherwise; the failure is never
propagated — `processSearchResults` completes with one entry per input. -/
theorem summarize_failure_degrades (summarizeModel : String → Except String Summary)
    (webpageContent e : String)
    (h : summarizeModel webpageContent = Except.error e) :
    summarizeWebpageContent summarizeModel webpageContent
        = (if webpageContent.length > 1000 then webpageContent.take 1000 ++ "..."
           else webpageContent)
    ∧ ∀ uniqueResults : List (String × SearchResult),
        (processSearchResults summarizeModel uniqueResults).length
          = uniqueResults.length := by
  constructor
  · simp [summarizeWebpageContent, h]
  · intro uniqueResults
    simp [processSearchResults]

/-- Witness for C7's amended claim at a failing model and short content. -/
theorem summarize_failure_degrades_witness :
    summarizeWebpageContent (fun _ => Except.error "down") "raw page" = "raw page"
    ∧ (processSearchResults (fun _ => Except.error "down")
        [("u", { url := "u", title := "t", content := "c",
                 raw_content := some "raw page" })]).length = 1 := by
  constructor
  · have h := (summarize_failure_degrades (fun _ => Except.error "down")
      "raw page" "down" rfl).1
    rw [h]
    decide
  · have h := (summarize_failure_degrades (fun _ => Except.error "down")
      "raw page" "down" rfl).2
      [("u", { url := "u", title := "t", content := "c",
               raw_content := some "raw page" })]
    simpa using h

/- ===== C4: lemmas on the deduplication fold ===== -/

/-- Lookup in a concatenation of association lists. -/
theorem recordLookup_append (m₁ m₂ : List (String × SearchResult)) (u : String) :
    recordLookup (m₁ ++ m₂) u
      = (match recordLookup m₁ u with
         | some v => some v
         | none => recordLookup m₂ u) := by
  induction m₁ with
  | nil => simp [recordLookup]
  | cons kv rest ih =>
      obtain ⟨k, v⟩ := kv
      by_cases h : k = u
      · simp [recordLookup, h]
      · simp [recordLookup, h, ih]

/-- A key is absent exactly when it is not among the stored keys. -/
theorem recordLookup_eq_none_iff (m : List (String × SearchResult)) (u : String) :
    recordLookup m u = none ↔ u ∉ m.map Prod.fst := by
  induction m with
  | nil => simp [recordLookup]
  | cons kv rest ih =>
      obtain ⟨k, v⟩ := kv
      by_cases h : k = u
      · simp [recordLookup, h]
      · simp only [recordLookup, if_neg h, List.map_cons, List.mem_cons]
        rw [ih]
        constructor
        · intro hn hor
          rcases hor with he | hm
          · exact h he.symm
          · exact hn hm
        · intro hn hm
          exact hn (Or.inr hm)

/-- A key is present exactly when it is among the stored keys. -/
theorem recordLookup_isSome_iff (m : List (String × SearchResult)) (u : String) :
    (recordLookup m u).isSome = true ↔ u ∈ m.map Prod.fst := by
  rw [Option.isSome_iff_ne_none, ne_eq, recordLookup_eq_none_iff]
  exact not_not

/-- The two branches of one `dedupInsert` step, as rewrite equations. -/
theorem dedupInsert_present (m : List (String × SearchResult)) (r : SearchResult)
    (hr : (recordLookup m r.url).isSome = true) : dedupInsert m r = m := by
  unfold dedupInsert
  rw [if_pos hr]

/-- When the URL is absent, `dedupInsert` appends the new binding. -/
theorem dedupInsert_absent (m : List (String × SearchResult)) (r : SearchResult)
    (hr : ¬(recordLookup m r.url).isSome = true) :
    dedupInsert m r = m ++ [(r.url, r)] := by
  unfold dedupInsert
  rw [if_neg hr]

/-- An already-stored binding survives the deduplication fold (first wins). -/
theorem dedupFold_lookup_some (results : List SearchResult) :
    ∀ (m : List (String × SearchResult)) (u : String) (v : SearchResult),
      recordLookup m u = some v →
      recordLookup (results.foldl dedupInsert m) u = some v := by
  induction results with
  | nil =>
      intro m u v h
      simpa using h
  | cons r rest ih =>
      intro m u v h
      rw [List.foldl_cons]
      apply ih
      by_cases hr : (recordLookup m r.url).isSome
      · rw [dedupInsert_present m r hr]; exact h
      · rw [dedupInsert_absent m r hr]
        simp [recordLookup_append, h]

/-- A key absent from the accumulator ends up bound to the first result with
that URL, in result order. -/
theorem dedupFold_lookup_none (results : List SearchResult) :
    ∀ (m : List (String × SearchResult)) (u : String),
      recordLookup m u = none →
      recordLookup (results.foldl dedupInsert m) u = firstWithUrl results u := by
  induction results with
  | nil =>
      intro m u h
      simpa [firstWithUrl] using h
  | cons r rest ih =>
      intro m u h
      rw [List.foldl_cons]
      by_cases hr : (recordLookup m r.url).isSome
      · rw [dedupInsert_present m r hr]
        have hne : r.url ≠ u := by
          intro he
          rw [he, h] at hr
          simp at hr
        rw [ih m u h]
        simp [firstWithUrl, hne]
      · rw [dedupInsert_absent m r hr]
        by_cases he : r.url = u
        · have hlook : recordLookup (m ++ [(r.url, r)]) u = some r := by
            simp [recordLookup_append, h, recordLookup, he]
          rw [dedupFold_lookup_some rest _ u r hlook]
          simp [firstWithUrl, he]
        · have hlook : recordLookup (m ++ [(r.url, r)]) u = none := by
            simp [recordLookup_append, h, recordLookup, he]
          rw [ih _ u hlook]
          simp [firstWithUrl, he]

/-- The nested batch/result loops equal one fold over the flattened results. -/
theorem dedup_eq_foldl_flatten (searchResults : List SearchResponse) :
    deduplicateSearchResults searchResults
      = (allResults searchResults).foldl dedupInsert [] := by
  suffices h : ∀ (bs : List SearchResponse) (m : List (String × SearchResult)),
      bs.foldl (fun m response => response.results.foldl dedupInsert m) m
        = (allResults bs).foldl dedupInsert m by
    exact h searchResults []
  intro bs
  induction bs with
  | nil =>
      intro m
      simp [allResults]
  | cons b rest ih =>
      intro m
      simp only [List.foldl_cons, allResults, List.flatMap_cons, List.foldl_append]
      rw [← allResults, ih]

/-- The stored entry for a URL is its first occurrence in
batch-then-within-batch order. -/
theorem dedup_lookup (searchResults : List SearchResponse) (u : String) :
    recordLookup (deduplicateSearchResults searchResults) u
      = firstWithUrl (allResults searchResults) u := by
  rw [dedup_eq_foldl_flatten]
  exact dedupFold_lookup_none (allResults searchResults) [] u rfl

/-- `firstWithUrl` finds something exactly when the URL occurs. -/
theorem firstWithUrl_isSome_iff (l : List SearchResult) (u : String) :
    (firstWithUrl l u).isSome = true ↔ u ∈ l.map (fun r => r.url) := by
  induction l with
  | nil => simp [firstWithUrl]
  | cons r rest ih =>
      by_cases h : r.url = u
      · simp [firstWithUrl, h]
      · simp only [firstWithUrl, if_neg h, List.map_cons, List.mem_cons]
        rw [ih]
        constructor
        · intro hm; exact Or.inr hm
        · intro hor
          rcases hor with he | hm
          · exact absurd he.symm h
          · exact hm

/-- What `firstWithUrl` returns is an occurrence with the looked-up URL. -/
theorem firstWithUrl_eq_some (l : List SearchResult) (u : String) (r : SearchResult) :
    firstWithUrl l u = some r → r.url = u ∧ r ∈ l := by
  induction l with
  | nil => intro h; simp [firstWithUrl] at h
  | cons x rest ih =>
      intro h
      by_cases hx : x.url = u
      · simp only [firstWithUrl, if_pos hx] at h
        obtain rfl := Option.some.inj h
        exact ⟨hx, List.mem_cons_self x rest⟩
      · simp only [firstWithUrl, if_neg hx] at h
        obtain ⟨h1, h2⟩ := ih h
        exact ⟨h1, List.mem_cons_of_mem x h2⟩

/-- The deduplication fold keeps the stored keys distinct. -/
theorem dedupFold_keys_nodup (results : List SearchResult) :
    ∀ m : List (String × SearchResult),
      (m.map Prod.fst).Nodup → (((results.foldl dedupInsert m).map Prod.fst).Nodup) := by
  induction results with
  | nil =>
      intro m h
      simpa using h
  | cons r rest ih =>
      intro m h
      rw [List.foldl_cons]
      apply ih
      by_cases hr : (recordLookup m r.url).isSome
      · rw [dedupInsert_present m r hr]; exact h
      · rw [dedupInsert_absent m r hr]
        have hnot : r.url ∉ m.map Prod.fst := by
          rw [← recordLookup_eq_none_iff]
          exact Option.not_isSome_iff_eq_none.mp hr
        simp only [List.map_append, List.map_cons, List.map_nil]
        rw [List.nodup_append]
        refine ⟨h, List.nodup_singleton _, ?_⟩
        intro a ha hb
        rw [List.mem_singleton] at hb
        subst hb
        exact hnot ha

/-- Every entry of the fold's output is keyed by its result's URL. -/
theorem dedupFold_entry_key (results : List SearchResult) :
    ∀ m : List (String × SearchResult),
      (∀ e ∈ m, e.1 = e.2.url) →
      ∀ e ∈ results.foldl dedupInsert m, e.1 = e.2.url := by
  induction results with
  | nil =>
      intro m h
      simpa using h
  | cons r rest ih =>
      intro m h
      rw [List.foldl_cons]
      apply ih
      by_cases hr : (recordLookup m r.url).isSome
      · rw [dedupInsert_present m r hr]; exact h
      · rw [dedupInsert_absent m r hr]
        intro e he
        rcases List.mem_append.mp he with hm | hs
        · exact h e hm
        · rw [List.mem_singleton.mp hs]

/-- The output size is the number of distinct URLs. -/
theorem dedup_length (searchResults : List SearchResponse) :
    (deduplicateSearchResults searchResults).length
      = ((allResults searchResults).map (fun r => r.url)).toFinset.card := by
  have hnodup : ((deduplicateSearchResults searchResults).map Prod.fst).Nodup := by
    rw [dedup_eq_foldl_flatten]
    exact dedupFold_keys_nodup (allResults searchResults) [] (by simp)
  have hmem : ∀ u, u ∈ (deduplicateSearchResults searchResults).map Prod.fst
      ↔ u ∈ (allResults searchResults).map (fun r => r.url) := by
    intro u
    rw [← recordLookup_isSome_iff, dedup_lookup, firstWithUrl_isSome_iff]
  calc (deduplicateSearchResults searchResults).length
      = ((deduplicateSearchResults searchResults).map Prod.fst).length := by simp
    _ = ((deduplicateSearchResults searchResults).map Prod.fst).toFinset.card :=
        (List.toFinset_card_of_nodup hnodup).symm
    _ = ((allResults searchResults).map (fun r => r.url)).toFinset.card := by
        congr 1
        apply Finset.ext
        intro u
        simp only [List.mem_toFinset]
        exact hmem u

/-- C4: for batches whose combined URL multiset has u distinct URLs,
`deduplicateSearchResults` returns exactly u entries, keyed by URL, the entry
for each URL being its first occurrence in batch-then-within-batch order;
reordering batches or entries (any permutation of the flattened results)
never changes the key set or the size, only which duplicate is kept. -/
theorem deduplicate_keeps_first_per_url (searchResults : List SearchResponse) :
    (deduplicateSearchResults searchResults).length
        = ((allResults searchResults).map (fun r => r.url)).toFinset.card
    ∧ (∀ u, recordLookup (deduplicateSearchResults searchResults) u
        = firstWithUrl (allResults searchResults) u)
    ∧ (∀ u r, recordLookup (deduplicateSearchResults searchResults) u = some r →
        r.url = u ∧ r ∈ allResults searchResults)
    ∧ (∀ e ∈ deduplicateSearchResults searchResults, e.1 = e.2.url)
    ∧ ((deduplicateSearchResults searchResults).map Prod.fst).Nodup
    ∧ (∀ other : List SearchResponse,
        (allResults searchResults).Perm (allResults other) →
        (∀ u, (recordLookup (deduplicateSearchResults searchResults) u).isSome
            = (recordLookup (deduplicateSearchResults other) u).isSome)
        ∧ (deduplicateSearchResults searchResults).length
            = (deduplicateSearchResults other).length) := by
  refine ⟨dedup_length searchResults, dedup_lookup searchResults, ?_, ?_, ?_, ?_⟩
  · intro u r h
    rw [dedup_lookup] at h
    exact firstWithUrl_eq_some _ u r h
  · rw [dedup_eq_foldl_flatten]
    exact dedupFold_entry_key (allResults searchResults) [] (by simp)
  · rw [dedup_eq_foldl_flatten]
    exact dedupFold_keys_nodup (allResults searchResults) [] (by simp)
  · intro other hperm
    constructor
    · intro u
      have h1 : ((recordLookup (deduplicateSearchResults searchResults) u).isSome = true)
          ↔ ((recordLookup (deduplicateSearchResults other) u).isSome = true) := by
        rw [dedup_lookup, dedup_lookup, firstWithUrl_isSome_iff, firstWithUrl_isSome_iff]
        exact (hperm.map (fun r => r.url)).mem_iff
      cases ha : (recordLookup (deduplicateSearchResults searchResults) u).isSome <;>
        cases hb : (recordLookup (deduplicateSearchResults other) u).isSome <;>
        simp_all
    · rw [dedup_length, dedup_length]
      congr 1
      apply Finset.ext
      intro u
      simp only [List.mem_toFinset]
      exact (hperm.map (fun r => r.url)).mem_iff

/-- Witness for C4 at concrete batches: the output size is the distinct-URL
count, and reordering the batches and entries leaves key membership
unchanged. -/
theorem deduplicate_keeps_first_per_url_witness :
    (deduplicateSearchResults wBatchA).length
        = ((allResults wBatchA).map (fun r => r.url)).toFinset.card
    ∧ (recordLookup (deduplicateSearchResults wBatchA) "a").isSome
        = (recordLookup (deduplicateSearchResults wBatchB) "a").isSome :=
  ⟨(deduplicate_keeps_first_per_url wBatchA).1,
   ((deduplicate_keeps_first_per_url wBatchA).2.2.2.2.2 wBatchB (by decide)).1 "a"⟩

/- ===== Supervisor lemmas ===== -/

/-- Neither command kind writes the iteration counter. -/
theorem applySupCommand_iterations (state : SupervisorStateRec) (cmd : SupCommand) :
    (applySupCommand state cmd).research_iterations = state.research_iterations := by
  cases cmd <;> rfl

/-- At or above the cap the exit check fires. -/
theorem supervisorExitCheck_of_max (state : SupervisorStateRec)
    (h : 6 ≤ state.research_iterations) : supervisorExitCheck state = true := by
  unfold supervisorExitCheck
  simp only [Bool.or_eq_true, decide_eq_true_eq, ge_iff_le]
  exact Or.inl (Or.inl h)

/-- When the exit check fires, the execution step returns the end command. -/
theorem supervisorToolsFn_of_exit (research : ToolCall → Except String WorkerResult)
    (state : SupervisorStateRec) (h : supervisorExitCheck state = true) :
    supervisorToolsFn research state = supervisorEndCommand state := by
  unfold supervisorToolsFn
  rw [h]
  rfl

/-- A non-ending execution step implies the counter is below the cap. -/
theorem iterations_lt_of_not_end (research : ToolCall → Except String WorkerResult)
    (state : SupervisorStateRec)
    (h : ¬(supervisorToolsFn research state).isEnd = true) :
    state.research_iterations < 6 := by
  by_contra hge
  push_neg at hge
  rw [supervisorToolsFn_of_exit research state
    (supervisorExitCheck_of_max state hge)] at h
  exact h rfl

/-- With the cap reachable within the remaining fuel, the run ends. -/
theorem runSupervisor_isSome (model : List Message → Message)
    (systemMessage : Message) (research : ToolCall → Except String WorkerResult) :
    ∀ (fuel : Nat) (state : SupervisorStateRec),
      6 ≤ state.research_iterations + fuel → 1 ≤ fuel →
      (runSupervisor model systemMessage research fuel state).isSome = true := by
  intro fuel
  induction fuel with
  | zero =>
      intro state h h1
      exact absurd h1 (by omega)
  | succ f ih =>
      intro state h _
      simp only [runSupervisor]
      by_cases hend : (supervisorToolsFn research (supervisorNode model systemMessage state)).isEnd = true
      · rw [if_pos hend]
        simp
      · rw [if_neg hend]
        have hlt : (supervisorNode model systemMessage state).research_iterations < 6 :=
          iterations_lt_of_not_end research _ hend
        have hit : (supervisorNode model systemMessage state).research_iterations
            = state.research_iterations + 1 := rfl
        apply ih
        · rw [applySupCommand_iterations, hit]
          omega
        · rw [hit] at hlt
          omega

/- ===== C2 ===== -/

/-- C2: for every model behavior and every worker oracle, a supervisor run
started at iteration counter 0 reaches the terminal state within at most
`maxResearcherIterations` decision cycles; the counter is incremented exactly
once per decision step, and the execution step ends the phase as soon as the
counter has reached the configured maximum. -/
theorem supervisor_terminates_within_max_iterations
    (model : List Message → Message) (systemMessage : Message)
    (research : ToolCall → Except String WorkerResult)
    (state : SupervisorStateRec) (h0 : state.research_iterations = 0) :
    (runSupervisor model systemMessage research maxResearcherIterations state).isSome = true
    ∧ (∀ s : SupervisorStateRec,
        (supervisorNode model systemMessage s).research_iterations
          = s.research_iterations + 1)
    ∧ (∀ s : SupervisorStateRec, maxResearcherIterations ≤ s.research_iterations →
        (supervisorToolsFn research s).isEnd = true) := by
  refine ⟨?_, fun s => rfl, ?_⟩
  · apply runSupervisor_isSome
    · rw [h0]
      norm_num [maxResearcherIterations]
    · norm_num [maxResearcherIterations]
  · intro s hs
    rw [supervisorToolsFn_of_exit research s (supervisorExitCheck_of_max s hs)]
    rfl

/-- Witness for C2: from the concrete initial state, even the adversarial
model that always delegates ends within 6 decision cycles. -/
theorem supervisor_terminates_within_max_iterations_witness :
    wSupState0.research_iterations = 0
    ∧ (runSupervisor wAdversarialModel wSupSystem wResearch
        maxResearcherIterations wSupState0).isSome = true :=
  ⟨rfl,
   (supervisor_terminates_within_max_iterations wAdversarialModel wSupSystem
      wResearch wSupState0 rfl).1⟩

/- ===== C3 ===== -/

/-- C3 counterexample: a latest turn carrying an empty (but present)
`tool_calls` array contains no capability invocations, yet the execution
step does not end the phase: it loops back to the supervisor with no tool
messages and no raw notes instead of harvesting notes and transitioning to
DONE (the code tests `!tool_calls`, and an empty array is truthy). -/
theorem supervisor_empty_batch_does_not_end_phase :
    supervisorToolsFn wResearch c3EmptyBatchState = SupCommand.toSupervisor [] []
    ∧ (SupCommand.toSupervisor [] []).isEnd = false := by
  exact ⟨by decide, rfl⟩

/-- C3 (amended): whenever, at the start of the execution step, the iteration
counter is at or above the configured maximum, or the latest turn carries no
`tool_calls` field at all (an AI turn with an empty invocation array does
not qualify), or the latest turn contains a ResearchComplete invocation, the
phase ends before any capability of that turn is executed: notes are
harvested via the note extractor over the full supervisor history, the
research brief is copied through unchanged, the history gains no ToolResult
for any invocation of that turn — in particular the ResearchComplete
invocation is never answered. -/
theorem supervisor_exit_ends_phase_before_execution
    (research : ToolCall → Except String WorkerResult) (state : SupervisorStateRec)
    (h : 6 ≤ state.research_iterations
      ∨ aiToolCalls state.supervisor_messages.getLast? = none
      ∨ ((aiToolCalls state.supervisor_messages.getLast?).getD []).any
          (fun toolCall => toolCall.name == "ResearchComplete") = true) :
    supervisorToolsFn research state
        = SupCommand.toEnd (getNotesFromToolCalls state.supervisor_messages)
            state.research_brief
    ∧ (applySupCommand state (supervisorToolsFn research state)).notes
        = state.notes ++ getNotesFromToolCalls state.supervisor_messages
    ∧ (applySupCommand state (supervisorToolsFn research state)).research_brief
        = state.research_brief
    ∧ (applySupCommand state (supervisorToolsFn research state)).supervisor_messages
        = state.supervisor_messages := by
  have hexit : supervisorExitCheck state = true := by
    unfold supervisorExitCheck
    simp only [Bool.or_eq_true, decide_eq_true_eq, ge_iff_le, Option.isNone_iff_eq_none]
    rcases h with h1 | h2 | h3
    · exact Or.inl (Or.inl h1)
    · exact Or.inl (Or.inr h2)
    · exact Or.inr h3
  have heq : supervisorToolsFn research state = supervisorEndCommand state :=
    supervisorToolsFn_of_exit research state hexit
  rw [heq]
  refine ⟨?_, ?_, ?_, ?_⟩
  · simp [supervisorEndCommand, orEmpty_eq]
  · rfl
  · simp [supervisorEndCommand, applySupCommand, orEmpty_eq]
  · rfl

/-- Witness for C3's amended claim: a ResearchComplete invocation below the
cap ends the phase with harvested notes and the brief unchanged, answering
no invocation. -/
theorem supervisor_exit_ends_phase_before_execution_witness :
    supervisorToolsFn wResearch c3CompleteState
        = SupCommand.toEnd (getNotesFromToolCalls c3CompleteState.supervisor_messages)
            c3CompleteState.research_brief :=
  (supervisor_exit_ends_phase_before_execution wResearch c3CompleteState
    (Or.inr (Or.inr (by decide)))).1

/- ===== C5 ===== -/

/-- If any delegation's handling throws, the whole `Promise.all` rejects. -/
theorem promiseAllSettled_error_of_mem (research : ToolCall → Except String WorkerResult) :
    ∀ calls : List ToolCall,
      (∃ c ∈ calls, ∃ e, research c = Except.error e) →
      ∃ e, promiseAllSettled research calls = Except.error e := by
  intro calls
  induction calls with
  | nil =>
      rintro ⟨c, hc, -⟩
      simp at hc
  | cons tc rest ih =>
      rintro ⟨c, hc, e, he⟩
      rcases List.mem_cons.mp hc with rfl | hmem
      · exact ⟨e, by simp [promiseAllSettled, he]⟩
      · cases hr : research tc with
        | error e2 => exact ⟨e2, by simp [promiseAllSettled, hr]⟩
        | ok r =>
            obtain ⟨e3, he3⟩ := ih ⟨c, hmem, e, he⟩
            exact ⟨e3, by simp [promiseAllSettled, hr, he3]⟩

/-- C5 counterexample: in a two-delegation batch whose first worker throws,
the execution step ends the whole phase (goto END with note harvest) — the
throwing delegation does NOT get a ToolResult carrying the fixed error
string, the surviving sibling's result is discarded, and no ToolResult is
appended for either invocation. -/
theorem worker_throw_counterexample :
    supervisorToolsFn c5Research c5State = SupCommand.toEnd [] "brief"
    ∧ (SupCommand.toEnd [] "brief").isEnd = true
    ∧ (SupCommand.toEnd ([] : List String) "brief").toolMessagesOf = [] := by
  exact ⟨by decide, rfl, rfl⟩

/-- C5 (amended): a delegated worker that throws during its supervisor-level
invocation handling makes the `Promise.all` reject; the surrounding catch
ends the whole phase: the step returns the end command (best-effort note
harvest, brief copied through) and appends no ToolResult for any invocation
of the batch, the siblings' results included. The fixed error string
`Error synthesizing research report` is used only for a worker that resolves
with a falsy compressed result, not for a throwing worker. -/
theorem worker_throw_ends_whole_phase
    (research : ToolCall → Except String WorkerResult) (state : SupervisorStateRec)
    (hexit : supervisorExitCheck state = false)
    (hthrow : ∃ c ∈ conductCallsOf state, ∃ e, research c = Except.error e) :
    supervisorToolsFn research state = supervisorEndCommand state
    ∧ (supervisorToolsFn research state).toolMessagesOf = [] := by
  obtain ⟨e, he⟩ := promiseAllSettled_error_of_mem research (conductCallsOf state) hthrow
  have heq : supervisorToolsFn research state = supervisorEndCommand state := by
    unfold supervisorToolsFn
    rw [hexit]
    simp [he]
  refine ⟨heq, ?_⟩
  rw [heq]
  rfl

/-- Witness for C5's amended claim at the concrete two-delegation batch. -/
theorem worker_throw_ends_whole_phase_witness :
    supervisorToolsFn c5Research c5State = supervisorEndCommand c5State :=
  (worker_throw_ends_whole_phase c5Research c5State (by decide)
    ⟨⟨"d1", "ConductResearch", { research_topic := some "topic one" }⟩, by decide,
     "worker crashed", rfl⟩).1

/- ===== C6 ===== -/

/-- With no rejected worker, `Promise.all` cannot have rejected. -/
theorem promiseAllPending_not_error
    (research : ToolCall → Option (Except String WorkerResult)) :
    ∀ calls : List ToolCall,
      (∀ c ∈ calls, isRejectedOutcome (research c) = false) →
      ∀ e, promiseAllPending research calls ≠ some (Except.error e) := by
  intro calls
  induction calls with
  | nil =>
      intro _ e
      simp [promiseAllPending]
  | cons tc rest ih =>
      intro h e
      have htc := h tc (List.mem_cons_self tc rest)
      have hrest := fun c hc => h c (List.mem_cons_of_mem tc hc)
      cases hr : research tc with
      | none =>
          simp only [promiseAllPending, hr]
          cases hp : promiseAllPending research rest with
          | none => simp
          | some ex =>
              cases ex with
              | error e2 => exact absurd hp (ih hrest e2)
              | ok rs => simp
      | some ex =>
          cases ex with
          | error e2 =>
              rw [hr] at htc
              simp [isRejectedOutcome] at htc
          | ok r =>
              simp only [promiseAllPending, hr]
              cases hp : promiseAllPending research rest with
              | none => simp
              | some ex2 =>
                  cases ex2 with
                  | error e2 => exact absurd hp (ih hrest e2)
                  | ok rs => simp

/-- With a still-running worker and no rejection, `Promise.all` is still
pending. -/
theorem promiseAllPending_pending
    (research : ToolCall → Option (Except String WorkerResult)) :
    ∀ calls : List ToolCall,
      (∃ c ∈ calls, research c = none) →
      (∀ c ∈ calls, isRejectedOutcome (research c) = false) →
      promiseAllPending research calls = none := by
  intro calls
  induction calls with
  | nil =>
      rintro ⟨c, hc, -⟩
      simp at hc
  | cons tc rest ih =>
      rintro ⟨c, hc, hcp⟩ hnorej
      have hrest := fun c hc => hnorej c (List.mem_cons_of_mem tc hc)
      rcases List.mem_cons.mp hc with rfl | hmem
      · simp only [promiseAllPending, hcp]
        cases hp : promiseAllPending research rest with
        | none => simp
        | some ex =>
            cases ex with
            | error e2 => exact absurd hp (promiseAllPending_not_error research rest hrest e2)
            | ok rs => simp
      · cases hr : research tc with
        | none =>
            simp only [promiseAllPending, hr]
            cases hp : promiseAllPending research rest with
            | none => simp
            | some ex =>
                cases ex with
                | error e2 => exact absurd hp (promiseAllPending_not_error research rest hrest e2)
                | ok rs => simp
        | some ex =>
            cases ex with
            | error e2 =>
                have htc := hnorej tc (List.mem_cons_self tc rest)
                rw [hr] at htc
                simp [isRejectedOutcome] at htc
            | ok r =>
                have hp := ih ⟨c, hmem, hcp⟩ hrest
                simp only [promiseAllPending, hr, hp]

/-- Once every worker settles, the pending-aware `Promise.all` agrees with
the settled one. -/
theorem promiseAllPending_total (research : ToolCall → Except String WorkerResult) :
    ∀ calls : List ToolCall,
      promiseAllPending (fun c => some (research c)) calls
        = some (promiseAllSettled research calls) := by
  intro calls
  induction calls with
  | nil => rfl
  | cons tc rest ih =>
      cases hr : research tc with
      | error e => simp [promiseAllPending, promiseAllSettled, hr]
      | ok r =>
          simp only [promiseAllPending, promiseAllSettled, hr, ih]
          cases promiseAllSettled research rest <;> simp

/-- C6: the fan-in barrier. While any worker spawned for the current batch
is still running and none has rejected, the execution step produces no
command at all — no worker's result (not even an already-finished sibling's)
is observed or aggregated into supervisor state, and the next decision cycle
cannot begin; and once every worker has settled, the step agrees with the
all-settled execution step. -/
theorem supervisor_fanin_barrier
    (research : ToolCall → Option (Except String WorkerResult))
    (state : SupervisorStateRec)
    (hexit : supervisorExitCheck state = false)
    (hpending : ∃ c ∈ conductCallsOf state, research c = none)
    (hnorej : ∀ c ∈ conductCallsOf state, isRejectedOutcome (research c) = false) :
    supervisorToolsAwait research state = none
    ∧ ∀ (total : ToolCall → Except String WorkerResult) (s : SupervisorStateRec),
        supervisorToolsAwait (fun c => some (total c)) s
          = some (supervisorToolsFn total s) := by
  constructor
  · unfold supervisorToolsAwait
    rw [hexit]
    simp [promiseAllPending_pending research (conductCallsOf state) hpending hnorej]
  · intro total s
    unfold supervisorToolsAwait supervisorToolsFn
    by_cases hex : supervisorExitCheck s
    · rw [hex]
      rfl
    · rw [Bool.not_eq_true] at hex
      rw [hex]
      simp only [promiseAllPending_total total (conductCallsOf s)]
      cases promiseAllSettled total (conductCallsOf s) <;> simp

/-- Witness for C6: with the first worker finished and the second still
running, the execution step is still suspended. -/
theorem supervisor_fanin_barrier_witness :
    supervisorToolsAwait c6Research c6State = none :=
  (supervisor_fanin_barrier c6Research c6State (by decide)
    ⟨⟨"d2", "ConductResearch", { research_topic := some "topic two" }⟩, by decide, rfl⟩
    (by decide)).1

/- ===== C8 ===== -/

/-- C8 counterexample: for the scenario batch issued in the order delegate
("c1"), delegate ("c2"), reflect ("t1"), the three appended ToolResults
carry the ids t1, c1, c2 — the reflect result is appended first, not in the
original invocation order of the batch. -/
theorem scenario_toolresult_order_counterexample :
    ((supervisorToolsFn c8Research
        (supervisorNode c8Model wSupSystem c8State0)).toolMessagesOf.map
          Message.toolCallId)
      = ["t1", "c1", "c2"]
    ∧ c8Batch.map ToolCall.id = ["c1", "c2", "t1"]
    ∧ (["t1", "c1", "c2"] : List String) ≠ ["c1", "c2", "t1"] := by
  exact ⟨by decide, by decide, by decide⟩

/-- C8 (amended): when the supervisor's first decision issues two
delegate-invocations and one reflect-invocation, the iteration counter
becomes 1, exactly three ToolResults are appended — the reflect-invocation's
ToolResult first, then one ToolResult per delegation in invocation order —
and the raw-notes accumulator gains exactly one joined string per delegated
worker (two strings, in delegation order). -/
theorem scenario_two_delegates_one_reflect
    (research : ToolCall → Except String WorkerResult) (r1 r2 : WorkerResult)
    (h1 : research c8Delegate1 = Except.ok r1)
    (h2 : research c8Delegate2 = Except.ok r2) :
    (supervisorNode c8Model wSupSystem c8State0).research_iterations = 1
    ∧ supervisorToolsFn research (supervisorNode c8Model wSupSystem c8State0)
        = SupCommand.toSupervisor
            [Message.tool (thinkToolRun "planning") "t1" "think_tool",
             Message.tool (researchPayload r1) "c1" "ConductResearch",
             Message.tool (researchPayload r2) "c2" "ConductResearch"]
            [workerRawNote r1, workerRawNote r2]
    ∧ (applySupCommand (supervisorNode c8Model wSupSystem c8State0)
          (supervisorToolsFn research
            (supervisorNode c8Model wSupSystem c8State0))).raw_notes
        = [workerRawNote r1, workerRawNote r2]
    ∧ (supervisorToolsFn research
          (supervisorNode c8Model wSupSystem c8State0)).toolMessagesOf.length = 3 := by
  have hexit : supervisorExitCheck (supervisorNode c8Model wSupSystem c8State0) = false := by
    decide
  have hthink : thinkCallsOf (supervisorNode c8Model wSupSystem c8State0) = [c8Reflect] := by
    decide
  have hconduct : conductCallsOf (supervisorNode c8Model wSupSystem c8State0)
      = [c8Delegate1, c8Delegate2] := by
    decide
  have heq : supervisorToolsFn research (supervisorNode c8Model wSupSystem c8State0)
      = SupCommand.toSupervisor
          [Message.tool (thinkToolRun "planning") "t1" "think_tool",
           Message.tool (researchPayload r1) "c1" "ConductResearch",
           Message.tool (researchPayload r2) "c2" "ConductResearch"]
          [workerRawNote r1, workerRawNote r2] := by
    unfold supervisorToolsFn
    rw [hexit, hthink, hconduct]
    simp only [promiseAllSettled, h1, h2]
    simp [c8Reflect, c8Delegate1, c8Delegate2, reflectionArg, orEmpty_eq]
  refine ⟨rfl, heq, ?_, ?_⟩
  · rw [heq]
    rfl
  · rw [heq]
    rfl

/-- Witness for C8's amended claim under the concrete research oracle. -/
theorem scenario_two_delegates_one_reflect_witness :
    (supervisorNode c8Model wSupSystem c8State0).research_iterations = 1
    ∧ (applySupCommand (supervisorNode c8Model wSupSystem c8State0)
          (supervisorToolsFn c8Research
            (supervisorNode c8Model wSupSystem c8State0))).raw_notes
        = [workerRawNote { compressed_research := "findings c1",
                           raw_notes := some ["note c1"] },
           workerRawNote { compressed_research := "findings c2",
                           raw_notes := some ["note c2"] }] :=
  ⟨(scenario_two_delegates_one_reflect c8Research
      { compressed_research := "findings c1", raw_notes := some ["note c1"] }
      { compressed_research := "findings c2", raw_notes := some ["note c2"] }
      rfl rfl).1,
   (scenario_two_delegates_one_reflect c8Research
      { compressed_research := "findings c1", raw_notes := some ["note c1"] }
      { compressed_research := "findings c2", raw_notes := some ["note c2"] }
      rfl rfl).2.2.1⟩

/- ===== C9 ===== -/

/-- C9: a delegated worker that completes normally with an empty string as
its `compressed_research` gets a ToolResult carrying the fixed string
`Error synthesizing research report` instead of its empty result: the
fallback is a falsy-value check that cannot distinguish a worker failure
from an empty successful result. -/
theorem empty_compressed_research_gets_error_string
    (research : ToolCall → Except String WorkerResult) (state : SupervisorStateRec)
    (cid : String) (args : ToolArgs) (rns : Option (List String))
    (hlast : aiToolCalls state.supervisor_messages.getLast?
      = some [⟨cid, "ConductResearch", args⟩])
    (hiter : state.research_iterations < 6)
    (hres : research ⟨cid, "ConductResearch", args⟩
      = Except.ok { compressed_research := "", raw_notes := rns }) :
    supervisorToolsFn research state
      = SupCommand.toSupervisor
          [Message.tool "Error synthesizing research report" cid "ConductResearch"]
          [workerRawNote { compressed_research := "", raw_notes := rns }] := by
  have hdec : decide (state.research_iterations ≥ 6) = false :=
    decide_eq_false (by omega)
  have hexit : supervisorExitCheck state = false := by
    simp only [supervisorExitCheck]
    rw [hlast, hdec]
    rfl
  have hthink : thinkCallsOf state = [] := by
    unfold thinkCallsOf batchToolCalls
    rw [hlast]
    rfl
  have hconduct : conductCallsOf state = [⟨cid, "ConductResearch", args⟩] := by
    unfold conductCallsOf batchToolCalls
    rw [hlast]
    rfl
  unfold supervisorToolsFn
  rw [hexit, hthink, hconduct]
  simp [promiseAllSettled, hres, researchPayload]

/-- Witness for C9: the concrete empty-result worker yields the fixed error
string as the delegation's ToolResult payload. -/
theorem empty_compressed_research_gets_error_string_witness :
    supervisorToolsFn c9Research c9State
      = SupCommand.toSupervisor
          [Message.tool "Error synthesizing research report" "d9" "ConductResearch"]
          [workerRawNote { compressed_research := "", raw_notes := some [] }] :=
  empty_compressed_research_gets_error_string c9Research c9State "d9"
    { research_topic := some "t" } (some []) (by decide) (by decide) rfl

end DeepResearch
